import Mathlib

/-!
Verification development for the go-cti package manager core
(`pkg/pacman/pacman.go`, `pkg/filesys/directory.go`, `pkg/bundle/bundle.go`).

Modelling conventions:
* File-system paths are modelled as lists of components (`Path`); the empty
  string path is `[]`, and `filepath.Join` is list append.
* File contents are modelled as `Bytes` (lists of byte values); the file
  system is an association list from paths to contents.
* Go errors built with `fmt.Errorf("ctx ...: %w", args..., err)` are modelled
  by the inductive `Err`, which keeps the context text, the formatted string
  arguments ("subjects") and the wrapped inner error; `Err.mentions s` asks
  whether the string `s` occurs among the subjects anywhere in the chain.
* External effects (the dependency resolver, the OS calls, JSON decoding)
  are oracles passed in explicitly; injected failures model environmental
  errors.
-/

namespace GoCti

abbrev Path := List String
abbrev Bytes := List Nat

/-- File system: association list from (component) paths to file contents. -/
abbrev FS := List (Path × Bytes)

def lookupFS (fs : FS) (p : Path) : Option Bytes :=
  (fs.find? (fun e => e.1 == p)).map (·.2)

/-- Go error chains: `msg` is a leaf error, `wrap` is `fmt.Errorf("...: %w")`.
`subjects` holds the formatted string arguments (e.g. a dependency name or the
components of a file path) interpolated into the message. -/
inductive Err where
  | msg (op : String) (subjects : List String)
  | wrap (op : String) (subjects : List String) (inner : Err)
deriving DecidableEq, Repr

/-- `e.mentions s` holds when `s` occurs among the interpolated subjects
anywhere in the error chain, i.e. the rendered message names `s`. -/
def Err.mentions (s : String) : Err → Bool
  | .msg _ subs => subs.contains s
  | .wrap _ subs inner => subs.contains s || inner.mentions s

/-! ### Dependency spec parsing -/

/-- Splits a character list at the first `'@'`; the separator is dropped.
When no `'@'` occurs the second component is empty. -/
def splitAtFirstAt : List Char → List Char × List Char
  | [] => ([], [])
  | c :: cs =>
    if c = '@' then ([], cs)
    else
      let p := splitAtFirstAt cs
      (c :: p.1, p.2)

/-- Modelled from the spec: `ParseIndexDependency` (the dependency spec parser
of §4.1, repo code not under `src/`) parses a `name` or `name@version` spec
string into a `(name, version)` pair; a spec without a version yields an empty
version component. -/
def ParseIndexDependency (dep : String) : String × String :=
  let p := splitAtFirstAt dep.data
  (String.mk p.1, String.mk p.2)

/-- The parsed name of a dependency spec. -/
def parsedName (dep : String) : String :=
  (ParseIndexDependency dep).1

/-- Manifest invariant: no two dependency specs parse to the same name. -/
def uniqueNames (l : List String) : Prop :=
  (l.map parsedName).Nodup

instance (l : List String) : Decidable (uniqueNames l) := by
  unfold uniqueNames; infer_instance

/-! ### Data model: Manifest (Index), Lock Snapshot -/

def IndexFileName : String := "index.json"

def MetadataCacheFile : String := ".cache.json"

/-- The Manifest (`Index`): the fields the verified operations read or write.
`depends` is the ordered dependency-spec list; `serialized` is the list of
serialized metadata cache file paths embedded when packing. -/
structure Index where
  depends : List String
  serialized : List Path
deriving DecidableEq, Repr

/-- `Index.Clone` returns a value copy of the manifest. -/
def Index.clone (idx : Index) : Index := idx

/-- Modelled from the spec: `Index.PutSerialized` (repo code not under
`src/`) tags the manifest so that it additionally lists the given serialized
metadata cache file path. -/
def Index.putSerialized (idx : Index) (p : Path) : Index :=
  if idx.serialized.contains p then idx
  else { idx with serialized := idx.serialized ++ [p] }

/-- A Package Lock Entry: the installed identifier (`appCode`, the directory
name the dependency lives under) and its own transitive dependency specs. -/
structure PkgLock where
  appCode : String
  depends : List String
deriving DecidableEq, Repr

/-- Lock Snapshot package mapping: source name to Package Lock Entry. -/
abbrev LockMap := List (String × PkgLock)

/-- Go map lookup, returning the zero value for a missing key. -/
def lookupLock (lock : LockMap) (name : String) : PkgLock :=
  (lock.lookup name).getD ⟨"", []⟩

/-- In-memory and persisted state of a `PackageManager`: the Manifest, the
Lock Snapshot's package mapping, and what has last been persisted by
`SaveIndex` / `SaveIndexLock` (`none` = not persisted in this run). -/
structure PacmanState where
  index : Index
  lockPackages : LockMap
  savedIndex : Option Index
  savedLock : Option LockMap
deriving DecidableEq, Repr

/-! ### Installer pipeline -/

/-- Sub-steps performed by post-install processing, recorded as a trace. -/
inductive Action where
  | rewrite (pkgPath : Path) (depAppCode : String)
  | buildCache (idxPath : Path)
deriving DecidableEq, Repr

/-- Oracles for the install pipeline.  `download` is the external resolver: it
may read and extend the Lock Snapshot mapping and returns the installed source
names and the set of superseded (replaced) names, or fails.  `rewriteFail` and
`cacheFail` inject environmental failures into link rewriting and cache
rebuilding.  `saveIndexErr` / `saveLockErr` inject persistence failures. -/
structure InstallEnv where
  depsDir : Path
  download : List String → Bool → LockMap →
    Except Err (List String × List String × LockMap)
  rewriteFail : Path → String → Option String
  cacheFail : Path → Option String
  saveIndexErr : Option Err
  saveLockErr : Option Err

/-- Modelled from the spec: `rewriteDepLinks` (repo code not under `src/`)
rewrites the transitive dependency's on-disk link inside the installed
package's private dependency directory; on an environmental failure its error
names the package path and the dependency. -/
def rewriteDepLinks (env : InstallEnv) (pkgPath : Path) (depAppCode : String) :
    Except Err Unit :=
  match env.rewriteFail pkgPath depAppCode with
  | some m => .error (.msg m (pkgPath ++ [depAppCode]))
  | none => .ok ()

/-- Modelled from the spec: `parser.BuildPackageCache` (repo code not under
`src/`) rebuilds the package's derived metadata cache from its manifest file;
on an environmental failure its error names that manifest file's path. -/
def BuildPackageCache (env : InstallEnv) (idxPath : Path) : Except Err Unit :=
  match env.cacheFail idxPath with
  | some m => .error (.msg m idxPath)
  | none => .ok ()

/-- The inner loop of `processInstalledDependencies`: rewrite the link of each
transitive dependency declared by the installed package, stopping at the first
failure.  Returns the trace of performed rewrites and the failure, if any. -/
def rewriteAll (env : InstallEnv) (lock : LockMap) (pkgPath : Path) :
    List String → List Action × Option Err
  | [] => ([], none)
  | dep :: rest =>
    let depSourceName := parsedName dep
    let depPkgLock := lookupLock lock depSourceName
    match rewriteDepLinks env pkgPath depPkgLock.appCode with
    | .error e =>
      ([.rewrite pkgPath depPkgLock.appCode],
        some (.wrap "failed to rewrite dependency links" [] e))
    | .ok _ =>
      let r := rewriteAll env lock pkgPath rest
      (.rewrite pkgPath depPkgLock.appCode :: r.1, r.2)

/-- Post-install processing of a single installed dependency: rewrite all its
transitive dependency links, then rebuild its metadata cache. -/
def processOne (env : InstallEnv) (lock : LockMap) (sourceName : String) :
    List Action × Option Err :=
  let pkgLock := lookupLock lock sourceName
  let pkgPath := env.depsDir ++ [pkgLock.appCode]
  let r := rewriteAll env lock pkgPath pkgLock.depends
  match r.2 with
  | some e => (r.1, some e)
  | none =>
    let idxPath := pkgPath ++ [IndexFileName]
    match BuildPackageCache env idxPath with
    | .error e => (r.1 ++ [.buildCache idxPath], some (.wrap "failed to build cache" [] e))
    | .ok _ => (r.1 ++ [.buildCache idxPath], none)

/-- `processInstalledDependencies`: post-process each installed dependency in
order, aborting the remaining pipeline at the first failure. -/
def processInstalledDependencies (env : InstallEnv) (lock : LockMap) :
    List String → List Action × Option Err
  | [] => ([], none)
  | s :: rest =>
    let r := processOne env lock s
    match r.2 with
    | some e => (r.1, some e)
    | none =>
      let r2 := processInstalledDependencies env lock rest
      (r.1 ++ r2.1, r2.2)

/-- Result of `InstallNewDependencies`: the returned value or error, the
final in-memory/persisted state, and the trace of post-install sub-steps. -/
structure InstallResult where
  res : Except Err (List String)
  state : PacmanState
  trace : List Action

/-- `installDependencies`: download via the external resolver, then
post-process the installed dependencies. -/
def installDependencies (env : InstallEnv) (s : PacmanState)
    (depends : List String) (replace : Bool) :
    Except Err (List String × List String × LockMap) × List Action :=
  match env.download depends replace s.lockPackages with
  | .error e => (.error (.wrap "failed to download dependencies" [] e), [])
  | .ok (installed, replaced, lock') =>
    let pr := processInstalledDependencies env lock' installed
    match pr.2 with
    | some e =>
      (.error (.wrap "failed to process installed dependencies" [] e), pr.1)
    | none => (.ok (installed, replaced, lock'), pr.1)

/-- `InstallNewDependencies`: install the requested specs, reconcile them into
`Manifest.Depends` (drop entries whose parsed name was superseded when any
replacement happened, then append requested specs not already present by exact
string), and persist the Manifest and the Lock Snapshot. -/
def InstallNewDependencies (env : InstallEnv) (s : PacmanState)
    (depends : List String) (replace : Bool) : InstallResult :=
  match installDependencies env s depends replace with
  | (.error e, tr) =>
    ⟨.error (.wrap "failed to install dependencies" [] e), s, tr⟩
  | (.ok (installed, replaced, lock'), tr) =>
    let s1 : PacmanState := { s with lockPackages := lock' }
    let deps1 :=
      if replaced.isEmpty then s1.index.depends
      else s1.index.depends.filter (fun d => !replaced.contains (parsedName d))
    let deps2 := depends.foldl
      (fun acc depName => if acc.contains depName then acc else acc ++ [depName])
      deps1
    let s2 : PacmanState := { s1 with index := { s1.index with depends := deps2 } }
    match env.saveIndexErr with
    | some e => ⟨.error (.wrap "failed to save index" [] e), s2, tr⟩
    | none =>
      let s3 : PacmanState := { s2 with savedIndex := some s2.index }
      match env.saveLockErr with
      | some e => ⟨.error (.wrap "failed to save index lock" [] e), s3, tr⟩
      | none =>
        ⟨.ok installed, { s3 with savedLock := some s3.lockPackages }, tr⟩

/-- New specs requested that are not yet present (by exact string) in `base`,
in first-seen order; this is what the append loop of
`InstallNewDependencies` adds at the end of `Manifest.Depends`. -/
def appendNew (base : List String) : List String → List String
  | [] => []
  | d :: rest =>
    if d ∈ base then appendNew base rest
    else d :: appendNew (base ++ [d]) rest

theorem foldl_append_eq_appendNew (ds : List String) :
    ∀ base : List String,
      ds.foldl (fun acc d => if acc.contains d then acc else acc ++ [d]) base =
        base ++ appendNew base ds := by
  induction ds with
  | nil => intro base; simp [appendNew]
  | cons d rest ih =>
    intro base
    have ih' : ∀ b : List String,
        List.foldl (fun acc x => if x ∈ acc then acc else acc ++ [x]) b rest =
          b ++ appendNew b rest := by
      intro b
      simpa using ih b
    simp only [List.foldl_cons, appendNew]
    by_cases h : d ∈ base
    · simp [h, ih' base]
    · simp [h, ih' (base ++ [d])]

theorem appendNew_nil_of_all_present (base : List String) (ds : List String)
    (h : ∀ d ∈ ds, d ∈ base) : appendNew base ds = [] := by
  induction ds with
  | nil => rfl
  | cons d rest ih =>
    have hd := h d (by simp)
    simp only [appendNew, hd, if_true]
    exact ih fun x hx => h x (by simp [hx])

/-- The manifest merge performed by `InstallNewDependencies` on success:
drop specs whose parsed name was superseded (when any replacement happened),
then append the requested specs not already present by exact string. -/
def installDepends (cur : List String) (ds : List String)
    (replaced : List String) : List String :=
  let deps1 :=
    if replaced.isEmpty then cur
    else cur.filter fun d => !replaced.contains (parsedName d)
  deps1 ++ appendNew deps1 ds

theorem installNew_success_shape
    (env : InstallEnv) (s : PacmanState) (ds : List String) (replace : Bool)
    (installed replaced : List String) (lock' : LockMap)
    (hdl : env.download ds replace s.lockPackages = .ok (installed, replaced, lock'))
    (hproc : (processInstalledDependencies env lock' installed).2 = none)
    (hsi : env.saveIndexErr = none) (hsl : env.saveLockErr = none) :
    InstallNewDependencies env s ds replace =
      ⟨.ok installed,
        ⟨{ s.index with depends := installDepends s.index.depends ds replaced },
          lock',
          some { s.index with depends := installDepends s.index.depends ds replaced },
          some lock'⟩,
        (processInstalledDependencies env lock' installed).1⟩ := by
  simp only [InstallNewDependencies, installDependencies, hdl, hproc, hsi, hsl,
    installDepends, foldl_append_eq_appendNew]

/-! ### Claim C1: replace semantics -/

/-- Concrete resolver for the replace scenario: supersedes name `A`,
installs nothing new, leaves the lock mapping unchanged. -/
def envRep : InstallEnv :=
  { depsDir := [".dep"]
    download := fun _ _ lock => .ok ([], ["A"], lock)
    rewriteFail := fun _ _ => none
    cacheFail := fun _ => none
    saveIndexErr := none
    saveLockErr := none }

def stateRep : PacmanState := ⟨⟨["A@1", "B@1"], []⟩, [], none, none⟩

/-- C1 counterexample: with `Manifest.Depends = [A@1, B@1]`, installing `A@2`
with `replace = true` (the install superseding `A`) yields
`[B@1, A@2]` — the new spec is appended at the end, not placed at the
position `A@1` previously occupied (index 1 instead of index 0). -/
theorem InstallNewDependencies_replace_position_cex :
    stateRep.index.depends = ["A@1", "B@1"] ∧
    parsedName "A@1" = "A" ∧ parsedName "A@2" = "A" ∧
    (InstallNewDependencies envRep stateRep ["A@2"] true).state.index.depends =
      ["B@1", "A@2"] ∧
    ((InstallNewDependencies envRep stateRep ["A@2"] true).state.index.depends).indexOf
        "A@2" ≠
      (stateRep.index.depends).indexOf "A@1" := by
  refine ⟨rfl, by decide, by decide, by decide, by decide⟩

/-- C1 (amended): installing a new spec with `replace = true`, where the
install supersedes its parsed name `a`, leaves `Manifest.Depends` with exactly
one entry whose parsed name is `a` — the new spec — appended at the end after
all superseded entries are dropped (regardless of the position the old entry
occupied), preserves parsed-name uniqueness, and persists the Manifest. -/
theorem InstallNewDependencies_replace_semantics
    (env : InstallEnv) (s : PacmanState) (newSpec a : String)
    (installed replaced : List String) (lock' : LockMap)
    (hdl : env.download [newSpec] true s.lockPackages = .ok (installed, replaced, lock'))
    (ha : a ∈ replaced)
    (hname : parsedName newSpec = a)
    (hproc : (processInstalledDependencies env lock' installed).2 = none)
    (hsi : env.saveIndexErr = none) (hsl : env.saveLockErr = none)
    (huniq : uniqueNames s.index.depends) :
    (InstallNewDependencies env s [newSpec] true).res = .ok installed ∧
    (InstallNewDependencies env s [newSpec] true).state.index.depends =
      (s.index.depends.filter fun d => !replaced.contains (parsedName d)) ++ [newSpec] ∧
    (((InstallNewDependencies env s [newSpec] true).state.index.depends).filter
        fun d => parsedName d == a) = [newSpec] ∧
    uniqueNames (InstallNewDependencies env s [newSpec] true).state.index.depends ∧
    (InstallNewDependencies env s [newSpec] true).state.savedIndex =
      some (InstallNewDependencies env s [newSpec] true).state.index := by
  have hsh := installNew_success_shape env s [newSpec] true installed replaced lock'
    hdl hproc hsi hsl
  have hne : replaced.isEmpty = false := by
    cases replaced
    · cases ha
    · rfl
  have hnotmem : newSpec ∉ s.index.depends.filter
      fun d => !replaced.contains (parsedName d) := by
    intro hmem
    have h2 := (List.mem_filter.mp hmem).2
    rw [hname] at h2
    simp at h2
    exact h2 ha
  have hid : installDepends s.index.depends [newSpec] replaced =
      (s.index.depends.filter fun d => !replaced.contains (parsedName d)) ++ [newSpec] := by
    simp only [installDepends, hne, Bool.false_eq_true, if_false, appendNew]
    rw [if_neg hnotmem]
  have hfilternil : ((s.index.depends.filter
      fun d => !replaced.contains (parsedName d)).filter
        fun d => parsedName d == a) = [] := by
    rw [List.filter_eq_nil_iff]
    intro d hd hda
    have h2 := (List.mem_filter.mp hd).2
    have : parsedName d = a := by simpa using hda
    rw [this] at h2
    simp at h2
    exact h2 ha
  have hanot : a ∉ (s.index.depends.filter
      fun d => !replaced.contains (parsedName d)).map parsedName := by
    intro hmem
    obtain ⟨d, hd, hda⟩ := List.mem_map.mp hmem
    have h2 := (List.mem_filter.mp hd).2
    rw [hda] at h2
    simp at h2
    exact h2 ha
  rw [hsh]
  refine ⟨rfl, ?_, ?_, ?_, rfl⟩
  · exact hid
  · rw [hid, List.filter_append, hfilternil]
    simp [hname]
  · show uniqueNames (installDepends s.index.depends [newSpec] replaced)
    rw [hid]
    unfold uniqueNames
    rw [List.map_append]
    have hsub : ((s.index.depends.filter
        fun d => !replaced.contains (parsedName d)).map parsedName).Nodup := by
      have hs : (s.index.depends.filter
          fun d => !replaced.contains (parsedName d)).Sublist s.index.depends :=
        List.filter_sublist _
      exact huniq.sublist (hs.map parsedName)
    rw [List.nodup_append]
    refine ⟨hsub, List.nodup_singleton _, ?_⟩
    intro x hx hx'
    simp [hname] at hx'
    subst hx'
    exact hanot hx

/-- C1 witness: the amended replace semantics at a concrete input. -/
theorem InstallNewDependencies_replace_semantics_witness :
    (InstallNewDependencies envRep stateRep ["A@2"] true).res = .ok [] ∧
    (InstallNewDependencies envRep stateRep ["A@2"] true).state.index.depends =
      (stateRep.index.depends.filter fun d => !(["A"].contains (parsedName d))) ++ ["A@2"] ∧
    (((InstallNewDependencies envRep stateRep ["A@2"] true).state.index.depends).filter
        fun d => parsedName d == "A") = ["A@2"] ∧
    uniqueNames (InstallNewDependencies envRep stateRep ["A@2"] true).state.index.depends ∧
    (InstallNewDependencies envRep stateRep ["A@2"] true).state.savedIndex =
      some (InstallNewDependencies envRep stateRep ["A@2"] true).state.index :=
  InstallNewDependencies_replace_semantics envRep stateRep "A@2" "A" [] ["A"] []
    rfl (by decide) (by decide) rfl rfl rfl (by decide)

/-! ### Claim C2: append semantics (`replace = false`) -/

/-- Concrete resolver for the append scenario: installs nothing, supersedes
nothing, leaves the lock mapping unchanged. -/
def envApp : InstallEnv :=
  { depsDir := [".dep"]
    download := fun _ _ lock => .ok ([], [], lock)
    rewriteFail := fun _ _ => none
    cacheFail := fun _ => none
    saveIndexErr := none
    saveLockErr := none }

def stateApp : PacmanState := ⟨⟨["A@1"], []⟩, [], none, none⟩

/-- C2 counterexample: with `Manifest.Depends = [A@1]`, installing `A@2` with
`replace = false` appends a second entry even though the parsed name `A` is
already present — the membership test is by exact spec string, so the result
is `[A@1, A@2]` (two entries with the same parsed name), not a no-op. -/
theorem InstallNewDependencies_append_cex :
    parsedName "A@2" = parsedName "A@1" ∧
    (InstallNewDependencies envApp stateApp ["A@2"] false).state.index.depends =
      ["A@1", "A@2"] := by
  exact ⟨by decide, by decide⟩

/-- C2 (amended): with `replace = false` (and no superseded names reported by
the resolver), a requested spec whose exact string is not already present in
`Manifest.Depends` is appended, preserving first-seen order; a requested spec
whose exact string is already present leaves `Manifest.Depends` unchanged.
Membership is by exact spec string, not by parsed name, so a same-name,
different-version spec is appended rather than ignored. -/
theorem InstallNewDependencies_append_semantics
    (env : InstallEnv) (s : PacmanState) (ds : List String)
    (installed : List String) (lock' : LockMap)
    (hdl : env.download ds false s.lockPackages = .ok (installed, [], lock'))
    (hproc : (processInstalledDependencies env lock' installed).2 = none)
    (hsi : env.saveIndexErr = none) (hsl : env.saveLockErr = none) :
    (InstallNewDependencies env s ds false).res = .ok installed ∧
    (InstallNewDependencies env s ds false).state.index.depends =
      s.index.depends ++ appendNew s.index.depends ds ∧
    ((∀ d ∈ ds, d ∈ s.index.depends) →
      (InstallNewDependencies env s ds false).state.index.depends = s.index.depends) ∧
    (InstallNewDependencies env s ds false).state.savedIndex =
      some (InstallNewDependencies env s ds false).state.index := by
  have hsh := installNew_success_shape env s ds false installed [] lock' hdl hproc hsi hsl
  rw [hsh]
  refine ⟨rfl, by simp [installDepends], ?_, rfl⟩
  intro h
  simp [installDepends, appendNew_nil_of_all_present _ _ h]

/-- C2 witness: the amended append semantics at a concrete input. -/
theorem InstallNewDependencies_append_semantics_witness :
    (InstallNewDependencies envApp stateApp ["B@1"] false).res = .ok [] ∧
    (InstallNewDependencies envApp stateApp ["B@1"] false).state.index.depends =
      stateApp.index.depends ++ appendNew stateApp.index.depends ["B@1"] ∧
    ((∀ d ∈ ["B@1"], d ∈ stateApp.index.depends) →
      (InstallNewDependencies envApp stateApp ["B@1"] false).state.index.depends =
        stateApp.index.depends) ∧
    (InstallNewDependencies envApp stateApp ["B@1"] false).state.savedIndex =
      some (InstallNewDependencies envApp stateApp ["B@1"] false).state.index :=
  InstallNewDependencies_append_semantics envApp stateApp ["B@1"] [] [] rfl rfl rfl rfl

/-! ### Claim C3: no mutation or persistence on fetch failure -/

/-- Concrete resolver that fails every fetch. -/
def envFetchFail : InstallEnv :=
  { depsDir := [".dep"]
    download := fun _ _ _ => .error (.msg "connection refused" [])
    rewriteFail := fun _ _ => none
    cacheFail := fun _ => none
    saveIndexErr := none
    saveLockErr := none }

def stateFetch : PacmanState := ⟨⟨["A@1"], []⟩, [], none, none⟩

/-- C3: if the fetch/download step fails, `InstallNewDependencies` returns a
wrapped error and leaves the whole in-memory state — in particular
`Manifest.Depends` — untouched, with nothing persisted (`SaveIndex` and
`SaveIndexLock` are not reached); and if the post-install processing step
fails instead, the Manifest is likewise unmutated and nothing is persisted,
i.e. persistence happens only after the install step succeeds. -/
theorem InstallNewDependencies_fetch_failure
    (env : InstallEnv) (s : PacmanState) (ds : List String) (replace : Bool) :
    (∀ e, env.download ds replace s.lockPackages = .error e →
      InstallNewDependencies env s ds replace =
        ⟨.error (.wrap "failed to install dependencies" []
            (.wrap "failed to download dependencies" [] e)), s, []⟩) ∧
    (∀ installed replaced lock' e,
      env.download ds replace s.lockPackages = .ok (installed, replaced, lock') →
      (processInstalledDependencies env lock' installed).2 = some e →
      (InstallNewDependencies env s ds replace).res =
        .error (.wrap "failed to install dependencies" []
          (.wrap "failed to process installed dependencies" [] e)) ∧
      (InstallNewDependencies env s ds replace).state.index = s.index ∧
      (InstallNewDependencies env s ds replace).state.savedIndex = s.savedIndex ∧
      (InstallNewDependencies env s ds replace).state.savedLock = s.savedLock) := by
  constructor
  · intro e he
    simp [InstallNewDependencies, installDependencies, he]
  · intro installed replaced lock' e hdl hproc
    simp [InstallNewDependencies, installDependencies, hdl, hproc]

/-- C3 witness: a failing fetch at a concrete input leaves the state intact. -/
theorem InstallNewDependencies_fetch_failure_witness :
    InstallNewDependencies envFetchFail stateFetch ["B@1"] false =
      ⟨.error (.wrap "failed to install dependencies" []
          (.wrap "failed to download dependencies" [] (.msg "connection refused" []))),
        stateFetch, []⟩ :=
  (InstallNewDependencies_fetch_failure envFetchFail stateFetch ["B@1"] false).1
    (.msg "connection refused" []) rfl

/-! ### Claim C7: post-install processing aborts at the first failure -/

theorem rewriteAll_err_mentions (env : InstallEnv) (lock : LockMap) (pkgPath : Path)
    (x : String) (hx : x ∈ pkgPath) :
    ∀ deps e, (rewriteAll env lock pkgPath deps).2 = some e → e.mentions x = true := by
  intro deps
  induction deps with
  | nil =>
    intro e h
    simp [rewriteAll] at h
  | cons d rest ih =>
    intro e h
    simp only [rewriteAll] at h
    cases hf : env.rewriteFail pkgPath (lookupLock lock (parsedName d)).appCode with
    | some m =>
      simp only [rewriteDepLinks, hf] at h
      simp at h
      subst h
      simp [Err.mentions, hx]
    | none =>
      simp only [rewriteDepLinks, hf] at h
      exact ih e h

theorem processOne_err_mentions (env : InstallEnv) (lock : LockMap) (s : String) (e : Err)
    (h : (processOne env lock s).2 = some e) :
    e.mentions (lookupLock lock s).appCode = true := by
  simp only [processOne] at h
  cases hr : (rewriteAll env lock (env.depsDir ++ [(lookupLock lock s).appCode])
      (lookupLock lock s).depends).2 with
  | some e' =>
    rw [hr] at h
    simp at h
    subst h
    exact rewriteAll_err_mentions env lock _ _ (by simp) _ e' hr
  | none =>
    rw [hr] at h
    cases hc : env.cacheFail
        (env.depsDir ++ [(lookupLock lock s).appCode] ++ [IndexFileName]) with
    | some m =>
      simp only [BuildPackageCache, hc] at h
      simp at h
      subst h
      simp [Err.mentions]
    | none =>
      simp only [BuildPackageCache, hc] at h
      simp at h

theorem processInstalled_failfast_aux (env : InstallEnv) (lock : LockMap)
    (s : String) (post : List String) (e : Err)
    (hfail : (processOne env lock s).2 = some e) :
    ∀ pre : List String, (∀ p ∈ pre, (processOne env lock p).2 = none) →
      processInstalledDependencies env lock (pre ++ s :: post) =
        ((pre.map fun p => (processOne env lock p).1).flatten ++ (processOne env lock s).1,
          some e) := by
  intro pre
  induction pre with
  | nil =>
    intro _
    simp [processInstalledDependencies, hfail]
  | cons p rest ih =>
    intro hpre
    have hp := hpre p (by simp)
    have hrest : ∀ q ∈ rest, (processOne env lock q).2 = none :=
      fun q hq => hpre q (by simp [hq])
    simp only [List.cons_append, processInstalledDependencies, hp, List.append_eq]
    rw [ih hrest]
    simp [List.append_assoc]

/-- Concrete environment for the C7 witness: rewriting links inside the
package installed at `.dep/sapp` fails with an environmental error. -/
def envProc : InstallEnv :=
  { depsDir := [".dep"]
    download := fun _ _ lock => .ok ([], [], lock)
    rewriteFail := fun p _ => if p = [".dep", "sapp"] then some "permission denied" else none
    cacheFail := fun _ => none
    saveIndexErr := none
    saveLockErr := none }

def lockProc : LockMap := [("S", ⟨"sapp", ["T@1"]⟩), ("T", ⟨"tapp", []⟩)]

def errProc : Err :=
  .wrap "failed to rewrite dependency links" []
    (.msg "permission denied" [".dep", "sapp", "tapp"])

/-- C7: if link rewriting or cache rebuilding fails while post-processing an
installed dependency, the remaining pipeline is aborted — the performed
sub-steps are exactly those of the earlier dependencies plus the failing one,
independently of the dependencies still to process — and the returned error
names the offending dependency (its installed directory appears in the error
chain). -/
theorem processInstalledDependencies_abort_names_dep
    (env : InstallEnv) (lock : LockMap) (pre : List String) (s : String)
    (post : List String) (e : Err)
    (hpre : ∀ p ∈ pre, (processOne env lock p).2 = none)
    (hfail : (processOne env lock s).2 = some e) :
    processInstalledDependencies env lock (pre ++ s :: post) =
      ((pre.map fun p => (processOne env lock p).1).flatten ++ (processOne env lock s).1,
        some e) ∧
    e.mentions (lookupLock lock s).appCode = true :=
  ⟨processInstalled_failfast_aux env lock s post e hfail pre hpre,
    processOne_err_mentions env lock s e hfail⟩

/-- C7 witness: a concrete failing rewrite aborts the pipeline before the
trailing dependency and the error names the offending package directory. -/
theorem processInstalledDependencies_abort_names_dep_witness :
    processInstalledDependencies envProc lockProc (["T"] ++ "S" :: ["U"]) =
      ((["T"].map fun p => (processOne envProc lockProc p).1).flatten ++
          (processOne envProc lockProc "S").1,
        some errProc) ∧
    errProc.mentions (lookupLock lockProc "S").appCode = true :=
  processInstalledDependencies_abort_names_dep envProc lockProc ["T"] "S" ["U"] errProc
    (by decide) (by decide)

/-! ### Validator orchestrator (claim C4) -/

/-- The part of a dependency's manifest `Validate` uses: its base directory. -/
structure IndexFileRes where
  baseDir : Path
deriving DecidableEq, Repr

/-- Oracles for `Validate`: injected failures for the external parser
(`parseErr`), cache dump, local-entity seeding, per-path manifest read
failures, the set of unreadable metadata cache files, and the violation list
produced by the external validation engine. -/
structure ValidateEnv where
  depsDir : Path
  parseErr : Option Err
  dumpCacheErr : Option Err
  addEntitiesErr : Option Err
  readIndexFail : Path → Option Err
  unreadableCache : Path → Bool
  violations : List Err

/-- Modelled from the spec: `_package.ReadIndexFile` (repo code not under
`src/`) reads a dependency's manifest file to locate its base directory; on
success the base directory is the directory containing the manifest file. -/
def ReadIndexFile (env : ValidateEnv) (p : Path) : Except Err IndexFileRes :=
  match env.readIndexFail p with
  | some e => .error e
  | none => .ok ⟨p.dropLast⟩

/-- Modelled from the spec: `validator.AddFromFile` (repo code not under
`src/`) feeds the validator a pre-built metadata cache file; a missing or
unreadable cache file yields an error identifying that file's path. -/
def AddFromFile (env : ValidateEnv) (p : Path) : Except Err Unit :=
  if env.unreadableCache p then .error (.msg "failed to read file" p)
  else .ok ()

/-- The dependency loop of `Validate`: for each Lock Snapshot entry, read that
dependency's manifest file, then feed its pre-built metadata cache to the
validator, aborting at the first failure.  Returns the AppCodes of the
dependencies actually processed and the failure, if any. -/
def validateDeps (env : ValidateEnv) : List PkgLock → List String × Option Err
  | [] => ([], none)
  | dep :: rest =>
    match ReadIndexFile env (env.depsDir ++ [dep.appCode, IndexFileName]) with
    | .error e =>
      ([dep.appCode], some (.wrap "failed to read index file for" [dep.appCode] e))
    | .ok idx =>
      match AddFromFile env (idx.baseDir ++ [MetadataCacheFile]) with
      | .error e =>
        ([dep.appCode], some (.wrap "failed to add entities from" [MetadataCacheFile] e))
      | .ok _ =>
        let r := validateDeps env rest
        (dep.appCode :: r.1, r.2)

/-- `Validate`: parse the package, dump its cache, seed the validator with the
local entities, load each locked dependency's metadata cache, then run full
validation.  Returns the processed dependencies' AppCodes together with either
a singleton operational error list or the violation list. -/
def Validate (env : ValidateEnv) (lockPkgs : List PkgLock) : List String × List Err :=
  match env.parseErr with
  | some e => ([], [.wrap "failed to parse package" [] e])
  | none =>
  match env.dumpCacheErr with
  | some e => ([], [.wrap "failed to dump cache" [] e])
  | none =>
  match env.addEntitiesErr with
  | some e => ([], [.wrap "failed to add entities" [] e])
  | none =>
    let r := validateDeps env lockPkgs
    match r.2 with
    | some e => (r.1, [e])
    | none => (r.1, env.violations)

theorem dropLast_manifest (base : Path) (a b : String) :
    (base ++ [a, b]).dropLast = base ++ [a] := by
  rw [show base ++ [a, b] = (base ++ [a]) ++ [b] by simp]
  exact List.dropLast_concat

theorem validateDeps_ok_cons (env : ValidateEnv) (p : PkgLock) (rest : List PkgLock)
    (h1 : env.readIndexFail (env.depsDir ++ [p.appCode, IndexFileName]) = none)
    (h2 : env.unreadableCache (env.depsDir ++ [p.appCode, MetadataCacheFile]) = false) :
    validateDeps env (p :: rest) =
      (p.appCode :: (validateDeps env rest).1, (validateDeps env rest).2) := by
  simp [validateDeps, ReadIndexFile, h1, AddFromFile, dropLast_manifest, h2]

theorem validateDeps_fail_cons (env : ValidateEnv) (d : PkgLock) (rest : List PkgLock)
    (h1 : env.readIndexFail (env.depsDir ++ [d.appCode, IndexFileName]) = none)
    (h2 : env.unreadableCache (env.depsDir ++ [d.appCode, MetadataCacheFile]) = true) :
    validateDeps env (d :: rest) =
      ([d.appCode],
        some (.wrap "failed to add entities from" [MetadataCacheFile]
          (.msg "failed to read file" (env.depsDir ++ [d.appCode, MetadataCacheFile])))) := by
  simp [validateDeps, ReadIndexFile, h1, AddFromFile, dropLast_manifest, h2]

/-- C4: a Lock Snapshot entry whose pre-built metadata cache file is absent or
unreadable makes `Validate` abort fail-fast — the dependencies processed are
exactly the earlier ones plus the offending one, independently of the entries
still to process — returning a single operational error (not the violation
list) whose chain names the offending dependency's installed directory. -/
theorem Validate_missing_cache_failfast
    (env : ValidateEnv) (pre : List PkgLock) (d : PkgLock) (post : List PkgLock)
    (hparse : env.parseErr = none) (hdump : env.dumpCacheErr = none)
    (hadd : env.addEntitiesErr = none)
    (hpre : ∀ p ∈ pre,
      env.readIndexFail (env.depsDir ++ [p.appCode, IndexFileName]) = none ∧
      env.unreadableCache (env.depsDir ++ [p.appCode, MetadataCacheFile]) = false)
    (hidx : env.readIndexFail (env.depsDir ++ [d.appCode, IndexFileName]) = none)
    (hcache : env.unreadableCache (env.depsDir ++ [d.appCode, MetadataCacheFile]) = true) :
    Validate env (pre ++ d :: post) =
      (pre.map PkgLock.appCode ++ [d.appCode],
        [.wrap "failed to add entities from" [MetadataCacheFile]
          (.msg "failed to read file" (env.depsDir ++ [d.appCode, MetadataCacheFile]))]) ∧
    (Err.wrap "failed to add entities from" [MetadataCacheFile]
        (.msg "failed to read file"
          (env.depsDir ++ [d.appCode, MetadataCacheFile]))).mentions d.appCode = true := by
  have hloop : ∀ pre' : List PkgLock,
      (∀ p ∈ pre',
        env.readIndexFail (env.depsDir ++ [p.appCode, IndexFileName]) = none ∧
        env.unreadableCache (env.depsDir ++ [p.appCode, MetadataCacheFile]) = false) →
      validateDeps env (pre' ++ d :: post) =
        (pre'.map PkgLock.appCode ++ [d.appCode],
          some (.wrap "failed to add entities from" [MetadataCacheFile]
            (.msg "failed to read file"
              (env.depsDir ++ [d.appCode, MetadataCacheFile])))) := by
    intro pre'
    induction pre' with
    | nil =>
      intro _
      simpa using validateDeps_fail_cons env d post hidx hcache
    | cons p rest ih =>
      intro hp
      have h1 := (hp p (by simp)).1
      have h2 := (hp p (by simp)).2
      have hrest : ∀ q ∈ rest, _ ∧ _ := fun q hq => hp q (by simp [hq])
      rw [List.cons_append, validateDeps_ok_cons env p _ h1 h2, ih hrest]
      simp
  constructor
  · simp only [Validate, hparse, hdump, hadd, hloop pre hpre]
  · simp [Err.mentions]

/-- Concrete environment for the C4 witness: the cache file of dependency
`depB` is unreadable; everything else succeeds. -/
def envVal : ValidateEnv :=
  { depsDir := [".dep"]
    parseErr := none
    dumpCacheErr := none
    addEntitiesErr := none
    readIndexFail := fun _ => none
    unreadableCache := fun p => p == [".dep", "depB", MetadataCacheFile]
    violations := [] }

/-- C4 witness: with locked dependencies `depA, depB, depC` and `depB`'s cache
file unreadable, `Validate` processes only `depA` and `depB` and returns the
single wrapped error naming `depB`. -/
theorem Validate_missing_cache_failfast_witness :
    Validate envVal ([⟨"depA", []⟩] ++ (⟨"depB", []⟩ : PkgLock) :: [⟨"depC", []⟩]) =
      ([⟨"depA", []⟩].map PkgLock.appCode ++ ["depB"],
        [.wrap "failed to add entities from" [MetadataCacheFile]
          (.msg "failed to read file" (envVal.depsDir ++ ["depB", MetadataCacheFile]))]) ∧
    (Err.wrap "failed to add entities from" [MetadataCacheFile]
        (.msg "failed to read file"
          (envVal.depsDir ++ ["depB", MetadataCacheFile]))).mentions "depB" = true :=
  Validate_missing_cache_failfast envVal [⟨"depA", []⟩] ⟨"depB", []⟩ [⟨"depC", []⟩]
    rfl rfl rfl (by decide) (by decide) (by decide)

/-! ### Bundle packer (claims C5, C6) -/

/-- An entity instance: its CTI identifier and its values, read per field key
as path strings (the empty path is `[]`, matching an absent or empty value). -/
structure CtiEntity where
  cti : String
  values : List (String × Path)
deriving DecidableEq, Repr

/-- A CTI type: for each annotated field key, whether the annotation marks it
as an asset reference (`Asset != nil`). -/
structure CtiType where
  annotations : List (String × Bool)
deriving DecidableEq, Repr

/-- The entity registry produced by the external parser. -/
structure Registry where
  instances : List CtiEntity
  types : List (String × CtiType)
deriving DecidableEq, Repr

/-- Oracles for `Pack`: the external parser's result (registry plus package
base directory), an injected archive-creation failure, the external
`cti.GetParentCti`, and the manifest serializer `Index.ToBytes`. -/
structure PackEnv where
  parseResult : Except Err (Registry × Path)
  createErr : Option Err
  parentCti : String → String
  encodeIndex : Index → Bytes

/-- `key.GetValue(entity.Values).String()`: the entity's value at a field key
as a path, empty when the field is absent. -/
def getValue (e : CtiEntity) (key : String) : Path :=
  (e.values.lookup key).getD []

/-- The annotation scan of `Pack` for one entity: non-asset annotations are
skipped; an asset whose path value is empty stops the scan of this entity's
remaining annotations; otherwise the asset file's bytes are copied into the
archive at the asset's relative path. -/
def scanEntityAnns (fs : FS) (baseDir : Path) (e : CtiEntity) :
    List (String × Bool) → Except Err (List (Path × Bytes))
  | [] => .ok []
  | (key, isAsset) :: rest =>
    if !isAsset then scanEntityAnns fs baseDir e rest
    else
      let assetPath := getValue e key
      if assetPath = [] then .ok []
      else
        match lookupFS fs (baseDir ++ assetPath) with
        | none =>
          .error (.wrap "failed to bundle asset" assetPath
            (.msg "failed to open asset" assetPath))
        | some bytes =>
          (scanEntityAnns fs baseDir e rest).map fun entries =>
            (assetPath, bytes) :: entries

/-- The entity loop of `Pack`: resolve each entity's parent type (failing if
it is missing) and scan its annotations. -/
def scanEntities (env : PackEnv) (types : List (String × CtiType)) (fs : FS)
    (baseDir : Path) : List CtiEntity → Except Err (List (Path × Bytes))
  | [] => .ok []
  | e :: rest =>
    match types.lookup (env.parentCti e.cti) with
    | none => .error (.msg "type not found" [e.cti])
    | some typ =>
      (scanEntityAnns fs baseDir e typ.annotations).bind fun entries =>
        (scanEntities env types fs baseDir rest).map fun more => entries ++ more

/-- The serialized-metadata loop of `Pack`: copy each listed cache file's
bytes verbatim into the archive at its own path. -/
def copySerialized (fs : FS) (baseDir : Path) :
    List Path → Except Err (List (Path × Bytes))
  | [] => .ok []
  | m :: rest =>
    match lookupFS fs (baseDir ++ m) with
    | none =>
      .error (.wrap "failed to open serialized metadata" m
        (.msg "failed to open file" (baseDir ++ m)))
    | some bytes =>
      (copySerialized fs baseDir rest).map fun entries => (m, bytes) :: entries

/-- `Pack`: parse the package, create the archive, scan every entity's asset
annotations, then write the manifest clone (tagged with the metadata cache
file path) as the top-level `index.json` entry, then copy each listed
serialized cache file.  The archive is the ordered entry list. -/
def Pack (env : PackEnv) (fs : FS) (idx : Index) :
    Except Err (List (Path × Bytes)) :=
  match env.parseResult with
  | .error e => .error (.wrap "failed to parse package" [] e)
  | .ok (reg, baseDir) =>
  match env.createErr with
  | some e => .error (.wrap "failed to create archive" [] e)
  | none =>
  match scanEntities env reg.types fs baseDir reg.instances with
  | .error e => .error e
  | .ok assetEntries =>
    let idx2 := idx.clone.putSerialized [MetadataCacheFile]
    match copySerialized fs baseDir idx2.serialized with
    | .error e => .error e
    | .ok cacheEntries =>
      .ok (assetEntries ++ ([IndexFileName], env.encodeIndex idx2) :: cacheEntries)

theorem except_map_ok {ε α β : Type} (f : α → β) (x : Except ε α) (b : β)
    (h : x.map f = .ok b) : ∃ a, x = .ok a ∧ b = f a := by
  cases x with
  | error e => simp [Except.map] at h
  | ok a =>
    refine ⟨a, rfl, ?_⟩
    simpa [Except.map] using h.symm

theorem except_bind_ok {ε α β : Type} (f : α → Except ε β) (x : Except ε α) (b : β)
    (h : x.bind f = .ok b) : ∃ a, x = .ok a ∧ f a = .ok b := by
  cases x with
  | error e => simp [Except.bind] at h
  | ok a => exact ⟨a, rfl, by simpa [Except.bind] using h⟩

theorem scanEntityAnns_bytes (fs : FS) (baseDir : Path) (e : CtiEntity) :
    ∀ (anns : List (String × Bool)) (entries : List (Path × Bytes)),
      scanEntityAnns fs baseDir e anns = .ok entries →
      ∀ en ∈ entries, lookupFS fs (baseDir ++ en.1) = some en.2 := by
  intro anns
  induction anns with
  | nil =>
    intro entries h en hen
    simp only [scanEntityAnns] at h
    injection h with h
    subst h
    cases hen
  | cons a rest ih =>
    intro entries h en hen
    obtain ⟨key, b⟩ := a
    cases b with
    | false =>
      simp [scanEntityAnns] at h
      exact ih entries h en hen
    | true =>
      simp only [scanEntityAnns, Bool.not_true] at h
      rw [if_neg (by simp)] at h
      by_cases hv : getValue e key = []
      · rw [if_pos hv] at h
        injection h with h
        subst h
        cases hen
      · rw [if_neg hv] at h
        cases hl : lookupFS fs (baseDir ++ getValue e key) with
        | none =>
          rw [hl] at h
          exact Except.noConfusion h
        | some bytes =>
          rw [hl] at h
          obtain ⟨es, hes, hentries⟩ := except_map_ok _ _ _ h
          subst hentries
          rcases List.mem_cons.mp hen with rfl | hen
          · exact hl
          · exact ih es hes en hen

theorem scanEntities_bytes (env : PackEnv) (types : List (String × CtiType))
    (fs : FS) (baseDir : Path) :
    ∀ (es : List CtiEntity) (entries : List (Path × Bytes)),
      scanEntities env types fs baseDir es = .ok entries →
      ∀ en ∈ entries, lookupFS fs (baseDir ++ en.1) = some en.2 := by
  intro es
  induction es with
  | nil =>
    intro entries h en hen
    simp only [scanEntities] at h
    injection h with h
    subst h
    cases hen
  | cons e rest ih =>
    intro entries h en hen
    simp only [scanEntities] at h
    cases hl : types.lookup (env.parentCti e.cti) with
    | none =>
      rw [hl] at h
      exact Except.noConfusion h
    | some typ =>
      rw [hl] at h
      obtain ⟨ents, hents, hrest⟩ := except_bind_ok _ _ _ h
      obtain ⟨more, hmore, hentries⟩ := except_map_ok _ _ _ hrest
      subst hentries
      rcases List.mem_append.mp hen with hen | hen
      · exact scanEntityAnns_bytes fs baseDir e typ.annotations ents hents en hen
      · exact ih more hmore en hen

theorem copySerialized_spec (fs : FS) (baseDir : Path) :
    ∀ (ms : List Path) (entries : List (Path × Bytes)),
      copySerialized fs baseDir ms = .ok entries →
      entries.map Prod.fst = ms ∧
      ∀ en ∈ entries, lookupFS fs (baseDir ++ en.1) = some en.2 := by
  intro ms
  induction ms with
  | nil =>
    intro entries h
    simp only [copySerialized] at h
    injection h with h
    subst h
    exact ⟨rfl, by intro en hen; cases hen⟩
  | cons m rest ih =>
    intro entries h
    simp only [copySerialized] at h
    cases hl : lookupFS fs (baseDir ++ m) with
    | none =>
      rw [hl] at h
      exact Except.noConfusion h
    | some bytes =>
      rw [hl] at h
      obtain ⟨es, hes, hentries⟩ := except_map_ok _ _ _ h
      subst hentries
      obtain ⟨h1, h2⟩ := ih es hes
      refine ⟨by simp [h1], ?_⟩
      intro en hen
      rcases List.mem_cons.mp hen with rfl | hen
      · exact hl
      · exact h2 en hen

/-! ### Claim C5: empty asset path stops only the current entity's scan -/

/-- Concrete environment for the C5 witness. -/
def envPack5 : PackEnv :=
  { parseResult := .ok (⟨[], []⟩, ["pkg"])
    createErr := none
    parentCti := fun _ => "cti.x"
    encodeIndex := fun _ => [] }

def entityEmpty : CtiEntity := ⟨"cti.x.v1.0", []⟩

def typesPack5 : List (String × CtiType) := [("cti.x", ⟨[("img", true), ("doc", true)]⟩)]

/-- C5: if an asset-marked field of an entity evaluates to the empty path,
`Pack`'s scan stops this entity's remaining annotations without error
(returning the empty entry list whatever annotations follow), skips non-asset
annotations without stopping, and continues with the remaining entities (the
scan of the entity list equals the scan of the remaining entities). -/
theorem Pack_empty_asset_stops_entity_scan
    (env : PackEnv) (types : List (String × CtiType)) (fs : FS) (baseDir : Path)
    (e : CtiEntity) (key : String) (typ : CtiType) (post : List (String × Bool))
    (rest : List CtiEntity)
    (hty : types.lookup (env.parentCti e.cti) = some typ)
    (hann : typ.annotations = (key, true) :: post)
    (hempty : getValue e key = []) :
    scanEntityAnns fs baseDir e ((key, true) :: post) = .ok [] ∧
    (∀ (k : String) (rest' : List (String × Bool)),
      scanEntityAnns fs baseDir e ((k, false) :: rest') =
        scanEntityAnns fs baseDir e rest') ∧
    scanEntities env types fs baseDir (e :: rest) =
      scanEntities env types fs baseDir rest := by
  have h1 : scanEntityAnns fs baseDir e ((key, true) :: post) = .ok [] := by
    simp [scanEntityAnns, hempty]
  refine ⟨h1, ?_, ?_⟩
  · intro k rest'
    simp [scanEntityAnns]
  · simp only [scanEntities, hty, hann, h1]
    cases scanEntities env types fs baseDir rest <;> simp [Except.bind, Except.map]

/-- C5 witness: a concrete entity whose first asset annotation evaluates to
the empty path; the scan of this entity yields no entries and no error, and
the entity list scan continues with the remaining entities. -/
theorem Pack_empty_asset_stops_entity_scan_witness :
    scanEntityAnns [] ["pkg"] entityEmpty (("img", true) :: [("doc", true)]) = .ok [] ∧
    (∀ (k : String) (rest' : List (String × Bool)),
      scanEntityAnns [] ["pkg"] entityEmpty ((k, false) :: rest') =
        scanEntityAnns [] ["pkg"] entityEmpty rest') ∧
    scanEntities envPack5 typesPack5 [] ["pkg"] (entityEmpty :: [⟨"cti.x.v2.0", []⟩]) =
      scanEntities envPack5 typesPack5 [] ["pkg"] [⟨"cti.x.v2.0", []⟩] :=
  Pack_empty_asset_stops_entity_scan envPack5 typesPack5 [] ["pkg"] entityEmpty
    "img" ⟨[("img", true), ("doc", true)]⟩ [("doc", true)] [⟨"cti.x.v2.0", []⟩]
    rfl rfl rfl

/-! ### Claim C6: archive layout on success -/

/-- C6: when `Pack` succeeds, the archive is exactly: the discovered asset
entries (each byte-identical to the source file under the package base
directory), then the top-level manifest entry — the Manifest clone tagged
with the metadata cache file path, serialized — then one entry per listed
serialized cache file with its bytes copied verbatim. -/
theorem Pack_archive_layout
    (env : PackEnv) (fs : FS) (idx : Index) (reg : Registry) (baseDir : Path)
    (ar : List (Path × Bytes))
    (hp : env.parseResult = .ok (reg, baseDir))
    (hok : Pack env fs idx = .ok ar) :
    ∃ assetEntries cacheEntries,
      ar = assetEntries ++
        ([IndexFileName], env.encodeIndex (idx.clone.putSerialized [MetadataCacheFile])) ::
          cacheEntries ∧
      scanEntities env reg.types fs baseDir reg.instances = .ok assetEntries ∧
      (∀ en ∈ assetEntries, lookupFS fs (baseDir ++ en.1) = some en.2) ∧
      cacheEntries.map Prod.fst = (idx.clone.putSerialized [MetadataCacheFile]).serialized ∧
      (∀ en ∈ cacheEntries, lookupFS fs (baseDir ++ en.1) = some en.2) := by
  cases hc : env.createErr with
  | some e =>
    simp only [Pack, hp, hc] at hok
    exact Except.noConfusion hok
  | none =>
    simp only [Pack, hp, hc] at hok
    cases hscan : scanEntities env reg.types fs baseDir reg.instances with
    | error e =>
      rw [hscan] at hok
      exact Except.noConfusion hok
    | ok assetEntries =>
      rw [hscan] at hok
      cases hcopy : copySerialized fs baseDir
          (idx.clone.putSerialized [MetadataCacheFile]).serialized with
      | error e =>
        rw [hcopy] at hok
        exact Except.noConfusion hok
      | ok cacheEntries =>
        rw [hcopy] at hok
        injection hok with hok
        obtain ⟨hmap, hbytes⟩ := copySerialized_spec fs baseDir _ _ hcopy
        exact ⟨assetEntries, cacheEntries, hok.symm, rfl,
          scanEntities_bytes env reg.types fs baseDir _ _ hscan, hmap, hbytes⟩

/-- Concrete package for the C6 witness: one entity with one asset file, one
serialized metadata cache file. -/
def envPack6 : PackEnv :=
  { parseResult := .ok
      (⟨[⟨"cti.x.v1.0", [("img", ["assets", "logo.png"])]⟩],
        [("cti.x", ⟨[("img", true)]⟩)]⟩, ["pkg"])
    createErr := none
    parentCti := fun _ => "cti.x"
    encodeIndex := fun i => [i.depends.length, i.serialized.length] }

def fsPack6 : FS :=
  [(["pkg", "assets", "logo.png"], [1, 2, 3]), (["pkg", MetadataCacheFile], [9, 9])]

def idxPack6 : Index := ⟨["A@1"], []⟩

/-- C6 witness: the archive layout at a concrete package. -/
theorem Pack_archive_layout_witness :
    ∃ assetEntries cacheEntries,
      [((["assets", "logo.png"] : Path), ([1, 2, 3] : Bytes)),
        ([IndexFileName], envPack6.encodeIndex (idxPack6.clone.putSerialized [MetadataCacheFile])),
        ([MetadataCacheFile], [9, 9])] = assetEntries ++
        ([IndexFileName], envPack6.encodeIndex (idxPack6.clone.putSerialized [MetadataCacheFile])) ::
          cacheEntries ∧
      scanEntities envPack6
          [("cti.x", ⟨[("img", true)]⟩)] fsPack6 ["pkg"]
          [⟨"cti.x.v1.0", [("img", ["assets", "logo.png"])]⟩] = .ok assetEntries ∧
      (∀ en ∈ assetEntries, lookupFS fsPack6 (["pkg"] ++ en.1) = some en.2) ∧
      cacheEntries.map Prod.fst = (idxPack6.clone.putSerialized [MetadataCacheFile]).serialized ∧
      (∀ en ∈ cacheEntries, lookupFS fsPack6 (["pkg"] ++ en.1) = some en.2) :=
  Pack_archive_layout envPack6 fsPack6 idxPack6
    ⟨[⟨"cti.x.v1.0", [("img", ["assets", "logo.png"])]⟩], [("cti.x", ⟨[("img", true)]⟩)]⟩
    ["pkg"]
    [((["assets", "logo.png"] : Path), ([1, 2, 3] : Bytes)),
      ([IndexFileName], envPack6.encodeIndex (idxPack6.clone.putSerialized [MetadataCacheFile])),
      ([MetadataCacheFile], [9, 9])]
    rfl rfl

/-! ### Filesystem replace helpers (claims C8, C9) -/

/-- The entries of the file tree rooted at `p` (including a file at `p`). -/
def entriesUnder (p : Path) (fs : FS) : FS :=
  fs.filter fun en => p.isPrefixOf en.1

/-- `os.RemoveAll p`: delete the whole tree rooted at `p`; removing a
non-existent tree succeeds (the result is just `fs`). -/
def removeAllFS (p : Path) (fs : FS) : FS :=
  fs.filter fun en => !p.isPrefixOf en.1

/-- `os.Rename src dst`: every entry under `src` is re-rooted at `dst`. -/
def renameFS (src dst : Path) (fs : FS) : FS :=
  fs.map fun en =>
    if src <+: en.1 then (dst ++ en.1.drop src.length, en.2) else en

/-- `copy.Copy src dst`: add a copy of the tree rooted at `src`, re-rooted at
`dst`; the source entries stay in place. -/
def copyTreeFS (src dst : Path) (fs : FS) : FS :=
  fs ++ (entriesUnder src fs).map fun en => (dst ++ en.1.drop src.length, en.2)

/-- Injected environmental failures for the OS primitives used by the
filesystem replace helpers. -/
structure FsEnv where
  statErr : Option String
  removeErr : Option String
  mkdirErr : Option String
  renameErr : Option String
  copyErr : Option String

/-- `ReplaceWithMove(src, dst)`: `os.RemoveAll(dst)` (treating "not found" as
success), `os.MkdirAll(filepath.Dir(dst))`, then `os.Rename(src, dst)`; every
failure is returned wrapped.  Renaming a non-existent source fails. -/
def ReplaceWithMove (env : FsEnv) (fs : FS) (src dst : Path) : Except Err FS :=
  match env.removeErr with
  | some m => .error (.wrap "remove existing dir" [] (.msg m dst))
  | none =>
  let fs1 := removeAllFS dst fs
  match env.mkdirErr with
  | some m => .error (.wrap "create directory" [] (.msg m dst.dropLast))
  | none =>
  if entriesUnder src fs1 = [] then
    .error (.wrap "move" (src ++ dst) (.msg "no such file or directory" src))
  else
    match env.renameErr with
    | some m => .error (.wrap "move" (src ++ dst) (.msg m (src ++ dst)))
    | none => .ok (renameFS src dst fs1)

/-- The tail of `ReplaceWithCopy` after the removal step: `os.MkdirAll(dst)`
then `copy.Copy(src, dst)`, each failure returned wrapped. -/
def replaceWithCopyCont (env : FsEnv) (fs1 : FS) (src dst : Path) : Except Err FS :=
  match env.mkdirErr with
  | some m => .error (.wrap "create parent directory" [] (.msg m dst))
  | none =>
  match env.copyErr with
  | some m => .error (.wrap "copy" (src ++ dst) (.msg m (src ++ dst)))
  | none => .ok (copyTreeFS src dst fs1)

/-- `ReplaceWithCopy(src, dst)`: stat `dst` (an error other than "not found"
is fatal); if `dst` exists remove it entirely; ensure `dst`'s own directory
exists; deep-copy the `src` tree into `dst`. -/
def ReplaceWithCopy (env : FsEnv) (fs : FS) (src dst : Path) : Except Err FS :=
  match env.statErr with
  | some m => .error (.wrap "stat" dst (.msg m dst))
  | none =>
  if entriesUnder dst fs = [] then replaceWithCopyCont env fs src dst
  else
    match env.removeErr with
    | some m => .error (.wrap "remove existing bundle" [] (.msg m dst))
    | none => replaceWithCopyCont env (removeAllFS dst fs) src dst

theorem mem_removeAllFS {fs : FS} {p : Path} {en : Path × Bytes} :
    en ∈ removeAllFS p fs ↔ en ∈ fs ∧ ¬ p <+: en.1 := by
  simp [removeAllFS, List.mem_filter, Bool.not_eq_true', ← List.isPrefixOf_iff_prefix]

theorem mem_entriesUnder {fs : FS} {p : Path} {en : Path × Bytes} :
    en ∈ entriesUnder p fs ↔ en ∈ fs ∧ p <+: en.1 := by
  simp [entriesUnder, List.mem_filter, List.isPrefixOf_iff_prefix]

theorem entriesUnder_eq_nil {fs : FS} {p : Path} (h : entriesUnder p fs = []) :
    ∀ en ∈ fs, ¬ p <+: en.1 := by
  intro en hen hp
  have : en ∈ entriesUnder p fs := mem_entriesUnder.mpr ⟨hen, hp⟩
  simp [h] at this

/-- Two disjoint roots cannot both be ancestors of one path. -/
theorem not_prefix_append_of_disjoint {src dst : Path} (x : Path)
    (h1 : ¬ src <+: dst) (h2 : ¬ dst <+: src) : ¬ src <+: dst ++ x := by
  intro h
  rcases List.prefix_or_prefix_of_prefix h (List.prefix_append dst x) with h' | h'
  · exact h1 h'
  · exact h2 h'

/-- C8: `ReplaceWithMove` first removes any existing `dst` tree (not-found is
success), ensures `dst`'s parent directory, and renames `src` to `dst`.  On
success (for disjoint roots, with `src` present) every file of the original
`src` tree is found under `dst` with identical bytes and vice versa, and no
entry remains under `src`; a remove, mkdir, or rename failure is returned as
the corresponding wrapped error. -/
theorem ReplaceWithMove_spec (fs : FS) (src dst : Path)
    (h1 : ¬ src <+: dst) (h2 : ¬ dst <+: src)
    (hsrc : entriesUnder src (removeAllFS dst fs) ≠ []) :
    (∃ fs', ReplaceWithMove ⟨none, none, none, none, none⟩ fs src dst = .ok fs' ∧
      (∀ (q : Path) (b : Bytes), ((dst ++ q, b) ∈ fs' ↔ (src ++ q, b) ∈ fs)) ∧
      (∀ en ∈ fs', ¬ src <+: en.1)) ∧
    (∀ (env : FsEnv) (m : String), env.removeErr = some m →
      ReplaceWithMove env fs src dst =
        .error (.wrap "remove existing dir" [] (.msg m dst))) ∧
    (∀ (env : FsEnv) (m : String), env.removeErr = none → env.mkdirErr = some m →
      ReplaceWithMove env fs src dst =
        .error (.wrap "create directory" [] (.msg m dst.dropLast))) ∧
    (∀ (env : FsEnv) (m : String), env.removeErr = none → env.mkdirErr = none →
      env.renameErr = some m →
      ReplaceWithMove env fs src dst =
        .error (.wrap "move" (src ++ dst) (.msg m (src ++ dst)))) := by
  refine ⟨?_, ?_, ?_, ?_⟩
  · refine ⟨renameFS src dst (removeAllFS dst fs), by simp [ReplaceWithMove, hsrc], ?_, ?_⟩
    · intro q b
      constructor
      · intro hmem
        obtain ⟨⟨e1, e2⟩, hen, hfen⟩ := List.mem_map.mp hmem
        by_cases hsp : src <+: e1
        · rw [if_pos hsp] at hfen
          injection hfen with hf1 hf2
          have hf1' : dst ++ List.drop src.length e1 = dst ++ q := hf1
          have hf2' : e2 = b := hf2
          obtain ⟨t, ht⟩ := hsp
          have hdrop : List.drop src.length e1 = t := by
            rw [← ht]
            exact List.drop_left _ _
          have hq : t = q := by
            rw [hdrop] at hf1'
            exact List.append_cancel_left hf1'
          have he1 : e1 = src ++ q := by rw [← ht, hq]
          have hmem2 : ((e1, e2) : Path × Bytes) ∈ fs := (mem_removeAllFS.mp hen).1
          rw [he1, hf2'] at hmem2
          exact hmem2
        · rw [if_neg hsp] at hfen
          have hnd := (mem_removeAllFS.mp hen).2
          rw [hfen] at hnd
          exact absurd (List.prefix_append dst q) hnd
      · intro hmem
        have hnd : ¬ dst <+: src ++ q := not_prefix_append_of_disjoint q h2 h1
        have hin1 : ((src ++ q, b) : Path × Bytes) ∈ removeAllFS dst fs :=
          mem_removeAllFS.mpr ⟨hmem, hnd⟩
        apply List.mem_map.mpr
        refine ⟨(src ++ q, b), hin1, ?_⟩
        rw [if_pos (List.prefix_append src q)]
        simp [List.drop_left]
    · intro en hen
      obtain ⟨⟨e1, e2⟩, hen', hfen⟩ := List.mem_map.mp hen
      by_cases hsp : src <+: e1
      · rw [if_pos hsp] at hfen
        rw [← hfen]
        exact not_prefix_append_of_disjoint _ h1 h2
      · rw [if_neg hsp] at hfen
        rw [← hfen]
        exact hsp
  · intro env m hm
    simp [ReplaceWithMove, hm]
  · intro env m hm hk
    simp [ReplaceWithMove, hm, hk]
  · intro env m hm hk hr
    simp [ReplaceWithMove, hm, hk, hr, hsrc]

/-- Concrete file system for the C8 witness. -/
def fsMove : FS := [(["a", "f.txt"], [1, 2]), (["b", "old.txt"], [3])]

/-- C8 witness: the move postconditions and wrapped errors at a concrete
file system with `src = a`, `dst = b`. -/
theorem ReplaceWithMove_spec_witness :
    (∃ fs', ReplaceWithMove ⟨none, none, none, none, none⟩ fsMove ["a"] ["b"] = .ok fs' ∧
      (∀ (q : Path) (b : Bytes), ((["b"] ++ q, b) ∈ fs' ↔ (["a"] ++ q, b) ∈ fsMove)) ∧
      (∀ en ∈ fs', ¬ ["a"] <+: en.1)) ∧
    (∀ (env : FsEnv) (m : String), env.removeErr = some m →
      ReplaceWithMove env fsMove ["a"] ["b"] =
        .error (.wrap "remove existing dir" [] (.msg m ["b"]))) ∧
    (∀ (env : FsEnv) (m : String), env.removeErr = none → env.mkdirErr = some m →
      ReplaceWithMove env fsMove ["a"] ["b"] =
        .error (.wrap "create directory" [] (.msg m (["b"] : Path).dropLast))) ∧
    (∀ (env : FsEnv) (m : String), env.removeErr = none → env.mkdirErr = none →
      env.renameErr = some m →
      ReplaceWithMove env fsMove ["a"] ["b"] =
        .error (.wrap "move" (["a"] ++ ["b"]) (.msg m (["a"] ++ ["b"])))) :=
  ReplaceWithMove_spec fsMove ["a"] ["b"] (by decide) (by decide) (by decide)

theorem copyTree_mem (src dst : Path) (fs1 fs : FS)
    (h1 : ¬ src <+: dst) (h2 : ¬ dst <+: src)
    (hnod : ∀ en ∈ fs1, ¬ dst <+: en.1)
    (hsrcmem : ∀ (q : Path) (b : Bytes), ((src ++ q, b) ∈ fs1 ↔ (src ++ q, b) ∈ fs)) :
    (∀ (q : Path) (b : Bytes), ((dst ++ q, b) ∈ copyTreeFS src dst fs1 ↔ (src ++ q, b) ∈ fs)) ∧
    (∀ (q : Path) (b : Bytes), ((src ++ q, b) ∈ copyTreeFS src dst fs1 ↔ (src ++ q, b) ∈ fs)) := by
  constructor
  · intro q b
    constructor
    · intro hmem
      rcases List.mem_append.mp hmem with hmem | hmem
      · exact absurd (List.prefix_append dst q) (hnod _ hmem)
      · obtain ⟨⟨e1, e2⟩, hen, hfen⟩ := List.mem_map.mp hmem
        obtain ⟨hen1, hsp⟩ := mem_entriesUnder.mp hen
        injection hfen with hf1 hf2
        have hf1' : dst ++ List.drop src.length e1 = dst ++ q := hf1
        have hf2' : e2 = b := hf2
        obtain ⟨t, ht⟩ := hsp
        have ht' : src ++ t = e1 := ht
        have hdrop : List.drop src.length e1 = t := by
          rw [← ht']
          exact List.drop_left _ _
        have hq : t = q := by
          rw [hdrop] at hf1'
          exact List.append_cancel_left hf1'
        have he1 : e1 = src ++ q := by rw [← ht', hq]
        rw [he1, hf2'] at hen1
        exact (hsrcmem q b).mp hen1
    · intro hmem
      have hin1 : ((src ++ q, b) : Path × Bytes) ∈ fs1 := (hsrcmem q b).mpr hmem
      apply List.mem_append.mpr
      right
      apply List.mem_map.mpr
      refine ⟨(src ++ q, b), mem_entriesUnder.mpr ⟨hin1, List.prefix_append src q⟩, ?_⟩
      simp [List.drop_left]
  · intro q b
    constructor
    · intro hmem
      rcases List.mem_append.mp hmem with hmem | hmem
      · exact (hsrcmem q b).mp hmem
      · obtain ⟨⟨e1, e2⟩, hen, hfen⟩ := List.mem_map.mp hmem
        injection hfen with hf1 hf2
        have hf1' : dst ++ List.drop src.length e1 = src ++ q := hf1
        have : dst <+: src ++ q := ⟨List.drop src.length e1, hf1'⟩
        exact absurd this (not_prefix_append_of_disjoint q h2 h1)
    · intro hmem
      exact List.mem_append.mpr (Or.inl ((hsrcmem q b).mpr hmem))

/-- C9: `ReplaceWithCopy` removes `dst` when it exists (a stat failure is
fatal, removal failures are wrapped) and deep-copies the `src` tree into
`dst`: on success (for disjoint roots) every file of the `src` tree is found
under `dst` with identical bytes — and only those — while the `src` tree
itself is left unchanged; mkdir and copy failures are returned wrapped. -/
theorem ReplaceWithCopy_spec (fs : FS) (src dst : Path)
    (h1 : ¬ src <+: dst) (h2 : ¬ dst <+: src) :
    (∃ fs', ReplaceWithCopy ⟨none, none, none, none, none⟩ fs src dst = .ok fs' ∧
      (∀ (q : Path) (b : Bytes), ((dst ++ q, b) ∈ fs' ↔ (src ++ q, b) ∈ fs)) ∧
      (∀ (q : Path) (b : Bytes), ((src ++ q, b) ∈ fs' ↔ (src ++ q, b) ∈ fs))) ∧
    (∀ (env : FsEnv) (m : String), env.statErr = some m →
      ReplaceWithCopy env fs src dst = .error (.wrap "stat" dst (.msg m dst))) ∧
    (∀ (env : FsEnv) (m : String), env.statErr = none → env.removeErr = some m →
      entriesUnder dst fs ≠ [] →
      ReplaceWithCopy env fs src dst =
        .error (.wrap "remove existing bundle" [] (.msg m dst))) ∧
    (∀ (env : FsEnv) (m : String), env.statErr = none → env.removeErr = none →
      env.mkdirErr = some m →
      ReplaceWithCopy env fs src dst =
        .error (.wrap "create parent directory" [] (.msg m dst))) ∧
    (∀ (env : FsEnv) (m : String), env.statErr = none → env.removeErr = none →
      env.mkdirErr = none → env.copyErr = some m →
      ReplaceWithCopy env fs src dst =
        .error (.wrap "copy" (src ++ dst) (.msg m (src ++ dst)))) := by
  refine ⟨?_, ?_, ?_, ?_, ?_⟩
  · by_cases hdst : entriesUnder dst fs = []
    · have hco := copyTree_mem src dst fs fs h1 h2
        (fun en hen => entriesUnder_eq_nil hdst en hen)
        (fun q b => Iff.rfl)
      exact ⟨copyTreeFS src dst fs,
        by simp [ReplaceWithCopy, replaceWithCopyCont, hdst], hco.1, hco.2⟩
    · have hco := copyTree_mem src dst (removeAllFS dst fs) fs h1 h2
        (fun en hen => (mem_removeAllFS.mp hen).2)
        (fun q b => by
          constructor
          · intro h
            exact (mem_removeAllFS.mp h).1
          · intro h
            exact mem_removeAllFS.mpr ⟨h, not_prefix_append_of_disjoint q h2 h1⟩)
      exact ⟨copyTreeFS src dst (removeAllFS dst fs),
        by simp [ReplaceWithCopy, replaceWithCopyCont, hdst], hco.1, hco.2⟩
  · intro env m hm
    simp [ReplaceWithCopy, hm]
  · intro env m hs hm hne
    simp [ReplaceWithCopy, hs, hm, hne]
  · intro env m hs hr hm
    by_cases hdst : entriesUnder dst fs = [] <;>
      simp [ReplaceWithCopy, replaceWithCopyCont, hs, hr, hm, hdst]
  · intro env m hs hr hm hc
    by_cases hdst : entriesUnder dst fs = [] <;>
      simp [ReplaceWithCopy, replaceWithCopyCont, hs, hr, hm, hc, hdst]

/-- Concrete file system for the C9 witness. -/
def fsCopy : FS := [(["a", "f.txt"], [1, 2]), (["b", "old.txt"], [3])]

/-- C9 witness: the copy postconditions and wrapped errors at a concrete
file system with `src = a`, `dst = b`. -/
theorem ReplaceWithCopy_spec_witness :
    (∃ fs', ReplaceWithCopy ⟨none, none, none, none, none⟩ fsCopy ["a"] ["b"] = .ok fs' ∧
      (∀ (q : Path) (b : Bytes), ((["b"] ++ q, b) ∈ fs' ↔ (["a"] ++ q, b) ∈ fsCopy)) ∧
      (∀ (q : Path) (b : Bytes), ((["a"] ++ q, b) ∈ fs' ↔ (["a"] ++ q, b) ∈ fsCopy))) ∧
    (∀ (env : FsEnv) (m : String), env.statErr = some m →
      ReplaceWithCopy env fsCopy ["a"] ["b"] =
        .error (.wrap "stat" ["b"] (.msg m ["b"]))) ∧
    (∀ (env : FsEnv) (m : String), env.statErr = none → env.removeErr = some m →
      entriesUnder ["b"] fsCopy ≠ [] →
      ReplaceWithCopy env fsCopy ["a"] ["b"] =
        .error (.wrap "remove existing bundle" [] (.msg m ["b"]))) ∧
    (∀ (env : FsEnv) (m : String), env.statErr = none → env.removeErr = none →
      env.mkdirErr = some m →
      ReplaceWithCopy env fsCopy ["a"] ["b"] =
        .error (.wrap "create parent directory" [] (.msg m ["b"]))) ∧
    (∀ (env : FsEnv) (m : String), env.statErr = none → env.removeErr = none →
      env.mkdirErr = none → env.copyErr = some m →
      ReplaceWithCopy env fsCopy ["a"] ["b"] =
        .error (.wrap "copy" (["a"] ++ ["b"]) (.msg m (["a"] ++ ["b"])))) :=
  ReplaceWithCopy_spec fsCopy ["a"] ["b"] (by decide) (by decide)

/-! ### Bundle dictionaries (claim C10) -/

/-- A decoded dictionary entry (the decoded JSON value, abstracted). -/
abbrev Entry := Bytes

/-- Oracle for `GetDictionaries`: the JSON decoder behind
`validateDictionary`. -/
structure DictEnv where
  decode : Bytes → Except String Entry

/-- Drops everything up to and including the first `'.'` of a reversed
character list; `none` when no dot occurs. -/
def chopExtRev : List Char → Option (List Char)
  | [] => none
  | c :: cs => if c = '.' then some cs else chopExtRev cs

/-- Modelled from the spec: `filesys.GetBaseName` (repo code not under
`src/`) returns a file's base name — the final path component without its
extension — used as the dictionary's language code key. -/
def GetBaseName (p : Path) : String :=
  let name := p.getLast?.getD ""
  match chopExtRev name.data.reverse with
  | some rest => String.mk rest.reverse
  | none => name

/-- Go map assignment `m[k] = v`: overwrite the existing entry or add one. -/
def mapInsert (m : List (String × Entry)) (k : String) (v : Entry) :
    List (String × Entry) :=
  if m.any fun e => e.1 == k then m.map fun e => if e.1 == k then (k, v) else e
  else m ++ [(k, v)]

/-- The loop of `GetDictionaries`: open each listed dictionary file under the
bundle's base directory, decode it, and key the entry by the file's base
name; any failure returns the zero-value map together with a wrapped error. -/
def getDictsLoop (env : DictEnv) (fs : FS) (baseDir : Path)
    (acc : List (String × Entry)) :
    List Path → List (String × Entry) × Option Err
  | [] => (acc, none)
  | d :: rest =>
    match lookupFS fs (baseDir ++ d) with
    | none =>
      ([], some (.wrap "open dictionary file" [] (.msg "open" (baseDir ++ d))))
    | some bytes =>
      match env.decode bytes with
      | .error m =>
        ([], some (.wrap "validate dictionary" []
          (.wrap "decode dictionary" [] (.msg m []))))
      | .ok entry =>
        getDictsLoop env fs baseDir
          (mapInsert acc (GetBaseName (baseDir ++ d)) entry) rest

/-- `GetDictionaries`: build the language-code-to-entry map from the Index's
dictionary list; on any open or decode failure return the zero-value
`Dictionaries` and the wrapped error. -/
def GetDictionaries (env : DictEnv) (fs : FS) (baseDir : Path)
    (dicts : List Path) : List (String × Entry) × Option Err :=
  getDictsLoop env fs baseDir [] dicts

theorem mapInsert_keys_mem (m : List (String × Entry)) (k : String) (v : Entry)
    (x : String) :
    x ∈ (mapInsert m k v).map Prod.fst ↔ x ∈ m.map Prod.fst ∨ x = k := by
  by_cases h : m.any fun e => e.1 == k
  · have hk : k ∈ m.map Prod.fst := by
      obtain ⟨e, he, heq⟩ := List.any_eq_true.mp h
      have : e.1 = k := by simpa using heq
      exact List.mem_map.mpr ⟨e, he, this⟩
    have hmap : (m.map fun e => if e.1 == k then (k, v) else e).map Prod.fst =
        m.map Prod.fst := by
      rw [List.map_map]
      apply List.map_congr_left
      intro e _
      by_cases he : e.1 = k
      · simp [he]
      · simp [he]
    simp only [mapInsert, h, if_true, hmap]
    constructor
    · exact Or.inl
    · rintro (hx | rfl)
      · exact hx
      · exact hk
  · simp [mapInsert, h]

theorem mapInsert_keys_nodup (m : List (String × Entry)) (k : String) (v : Entry)
    (h : (m.map Prod.fst).Nodup) : ((mapInsert m k v).map Prod.fst).Nodup := by
  by_cases hk : m.any fun e => e.1 == k
  · have hmap : (m.map fun e => if e.1 == k then (k, v) else e).map Prod.fst =
        m.map Prod.fst := by
      rw [List.map_map]
      apply List.map_congr_left
      intro e _
      by_cases he : e.1 = k
      · simp [he]
      · simp [he]
    rw [mapInsert, if_pos hk, hmap]
    exact h
  · have hnk : k ∉ m.map Prod.fst := by
      intro hmem
      obtain ⟨e, he, heq⟩ := List.mem_map.mp hmem
      exact hk (List.any_eq_true.mpr ⟨e, he, by simp [heq]⟩)
    simp only [mapInsert, hk, if_false, Bool.false_eq_true, List.map_append]
    rw [List.nodup_append]
    refine ⟨h, List.nodup_singleton _, ?_⟩
    intro x hx hx'
    simp at hx'
    subst hx'
    exact hnk hx

theorem getDictsLoop_success (env : DictEnv) (fs : FS) (baseDir : Path) :
    ∀ (dicts : List Path) (acc : List (String × Entry)),
      (∀ d ∈ dicts, ∃ bytes entry, lookupFS fs (baseDir ++ d) = some bytes ∧
        env.decode bytes = .ok entry) →
      (acc.map Prod.fst).Nodup →
      (getDictsLoop env fs baseDir acc dicts).2 = none ∧
      (((getDictsLoop env fs baseDir acc dicts).1.map Prod.fst).Nodup) ∧
      (∀ x, x ∈ (getDictsLoop env fs baseDir acc dicts).1.map Prod.fst ↔
        x ∈ acc.map Prod.fst ∨ ∃ d ∈ dicts, x = GetBaseName (baseDir ++ d)) := by
  intro dicts
  induction dicts with
  | nil =>
    intro acc _ hacc
    refine ⟨rfl, hacc, ?_⟩
    intro x
    simp [getDictsLoop]
  | cons d rest ih =>
    intro acc hok hacc
    obtain ⟨bytes, entry, hl, hd⟩ := hok d (by simp)
    have hrest : ∀ d' ∈ rest, ∃ bytes entry, lookupFS fs (baseDir ++ d') = some bytes ∧
        env.decode bytes = .ok entry := fun d' hd' => hok d' (by simp [hd'])
    have hacc' := mapInsert_keys_nodup acc (GetBaseName (baseDir ++ d)) entry hacc
    obtain ⟨ih1, ih2, ih3⟩ := ih (mapInsert acc (GetBaseName (baseDir ++ d)) entry)
      hrest hacc'
    simp only [getDictsLoop, hl, hd]
    refine ⟨ih1, ih2, ?_⟩
    intro x
    rw [ih3 x, mapInsert_keys_mem]
    constructor
    · rintro ((hx | rfl) | ⟨d', hd', rfl⟩)
      · exact Or.inl hx
      · exact Or.inr ⟨d, by simp⟩
      · exact Or.inr ⟨d', by simp [hd']⟩
    · rintro (hx | ⟨d', hd', rfl⟩)
      · exact Or.inl (Or.inl hx)
      · rcases List.mem_cons.mp hd' with rfl | hd'
        · exact Or.inl (Or.inr rfl)
        · exact Or.inr ⟨d', hd', rfl⟩

theorem getDictsLoop_fail (env : DictEnv) (fs : FS) (baseDir : Path)
    (d : Path) (post : List Path) (e : Err)
    (hfail : ∀ acc, (getDictsLoop env fs baseDir acc (d :: post)).2 = some e ∧
      (getDictsLoop env fs baseDir acc (d :: post)).1 = []) :
    ∀ (pre : List Path) (acc : List (String × Entry)),
      (∀ p ∈ pre, ∃ bytes entry, lookupFS fs (baseDir ++ p) = some bytes ∧
        env.decode bytes = .ok entry) →
      getDictsLoop env fs baseDir acc (pre ++ d :: post) = ([], some e) := by
  intro pre
  induction pre with
  | nil =>
    intro acc _
    have h := hfail acc
    exact Prod.ext h.2 h.1
  | cons p rest ih =>
    intro acc hok
    obtain ⟨bytes, entry, hl, hd⟩ := hok p (by simp)
    have hrest : ∀ p' ∈ rest, ∃ bytes entry, lookupFS fs (baseDir ++ p') = some bytes ∧
        env.decode bytes = .ok entry := fun p' hp' => hok p' (by simp [hp'])
    simp only [List.cons_append, getDictsLoop, hl, hd]
    exact ih _ hrest

/-- C10 (amended): `GetDictionaries` returns, on success, a map with exactly
one entry per distinct base name among the listed dictionary files (a later
file overwrites an earlier one with the same base name, so the per-listed-file
count can be smaller), keyed by base name; if opening or decoding any listed
file fails, it returns the zero-value `Dictionaries` (an empty map, never a
partial one) together with the wrapped error. -/
theorem GetDictionaries_spec (env : DictEnv) (fs : FS) (baseDir : Path)
    (dicts : List Path) :
    ((∀ d ∈ dicts, ∃ bytes entry, lookupFS fs (baseDir ++ d) = some bytes ∧
        env.decode bytes = .ok entry) →
      (GetDictionaries env fs baseDir dicts).2 = none ∧
      ((GetDictionaries env fs baseDir dicts).1.map Prod.fst).Nodup ∧
      (∀ x, x ∈ (GetDictionaries env fs baseDir dicts).1.map Prod.fst ↔
        ∃ d ∈ dicts, x = GetBaseName (baseDir ++ d))) ∧
    (∀ (pre : List Path) (d : Path) (post : List Path),
      dicts = pre ++ d :: post →
      (∀ p ∈ pre, ∃ bytes entry, lookupFS fs (baseDir ++ p) = some bytes ∧
        env.decode bytes = .ok entry) →
      lookupFS fs (baseDir ++ d) = none →
      GetDictionaries env fs baseDir dicts =
        ([], some (.wrap "open dictionary file" [] (.msg "open" (baseDir ++ d))))) ∧
    (∀ (pre : List Path) (d : Path) (post : List Path) (bytes : Bytes) (m : String),
      dicts = pre ++ d :: post →
      (∀ p ∈ pre, ∃ bytes entry, lookupFS fs (baseDir ++ p) = some bytes ∧
        env.decode bytes = .ok entry) →
      lookupFS fs (baseDir ++ d) = some bytes →
      env.decode bytes = .error m →
      GetDictionaries env fs baseDir dicts =
        ([], some (.wrap "validate dictionary" []
          (.wrap "decode dictionary" [] (.msg m []))))) := by
  refine ⟨?_, ?_, ?_⟩
  · intro hok
    obtain ⟨h1, h2, h3⟩ := getDictsLoop_success env fs baseDir dicts [] hok (by simp)
    refine ⟨h1, h2, ?_⟩
    intro x
    simpa using h3 x
  · intro pre d post hd hpre hopen
    subst hd
    exact getDictsLoop_fail env fs baseDir d post _
      (fun acc => by constructor <;> simp [getDictsLoop, hopen]) pre [] hpre
  · intro pre d post bytes m hd hpre hopen hdec
    subst hd
    exact getDictsLoop_fail env fs baseDir d post _
      (fun acc => by constructor <;> simp [getDictsLoop, hopen, hdec]) pre [] hpre

/-- Concrete environment and bundle for claim C10: the decoder accepts every
file, and two listed dictionary files share the base name `en`. -/
def envDict : DictEnv := ⟨fun b => .ok b⟩

def fsDict : FS := [(["p", "a", "en.json"], [1]), (["p", "b", "en.json"], [2])]

/-- C10 counterexample: two listed dictionary files whose base names collide
produce a single map entry (the later file overwrites the earlier one), not
one map entry per listed dictionary file. -/
theorem GetDictionaries_per_file_cex :
    (GetDictionaries envDict fsDict ["p"] [["a", "en.json"], ["b", "en.json"]]).2 = none ∧
    (GetDictionaries envDict fsDict ["p"] [["a", "en.json"], ["b", "en.json"]]).1 =
      [("en", [2])] ∧
    ([["a", "en.json"], ["b", "en.json"]] : List Path).length = 2 := by
  refine ⟨rfl, by decide, rfl⟩

/-- C10 witness: the amended success behavior at a concrete bundle. -/
theorem GetDictionaries_spec_witness :
    (GetDictionaries envDict fsDict ["p"] [["a", "en.json"]]).2 = none ∧
    ((GetDictionaries envDict fsDict ["p"] [["a", "en.json"]]).1.map Prod.fst).Nodup ∧
    (∀ x, x ∈ (GetDictionaries envDict fsDict ["p"] [["a", "en.json"]]).1.map Prod.fst ↔
      ∃ d ∈ ([["a", "en.json"]] : List Path), x = GetBaseName (["p"] ++ d)) :=
  (GetDictionaries_spec envDict fsDict ["p"] [["a", "en.json"]]).1
    (by
      intro d hd
      simp only [List.mem_singleton] at hd
      subst hd
      exact ⟨[1], [1], rfl, rfl⟩)

end GoCti
